import Mathlib

/-!
# Verification of the aliasmgr core against its specification

This development gives a shallow embedding of the alias-manager's domain
model, structured-format codec, core operations and interactive resolution
layer, translated from the Rust sources under `src/`, and proves or refutes
the specification claims about them.

Conventions of the embedding:
* `indexmap::IndexMap<String, V>` is represented as an association list
  `List (String × V)` in insertion order.  An `IndexMap` never holds two
  entries with the same key (a type invariant of the library), so theorems
  that quantify over arbitrary configurations carry a `Config.WF`
  (key-nodup) hypothesis.
* Rust functions taking `&mut Config` are embedded in state-passing style,
  returning the (possibly unchanged) configuration next to the
  `Result<Outcome, Failure>` value.
* A Rust `panic!` / `.expect(...)` / indexing panic is embedded as an
  `Option` result with `none` for the panic.
* A few functions (`add_alias_str`, `get_all_aliases_grouped`,
  `get_aliases_from_single_group`, the three-argument `add_alias` and the
  `Outcome`-returning `edit_alias`) are imported by the sources under
  `src/` but not defined there; those are modelled from the specification
  text, and each carries a doc comment starting with `Modelled from the
  spec:` saying exactly what is missing.
* The sources contain two generations of the `Alias::new` calling
  convention.  `config/types.rs` (the authoritative data model) declares
  `new(command, group, enabled, global)` and derives
  `detailed = !enabled || global`; the older files `config/spec.rs` and
  `core/add.rs` call a legacy constructor
  `new(command, enabled, group, detailed)` that stores `detailed` directly
  and predates the `global` field.  The legacy convention is embedded by
  `Alias.mkLegacy`, which sets `global := false` (the legacy type had no
  `global` field).
-/

/-! ## Domain model (`src/config/types.rs`, `src/core/mod.rs`, `src/app/shell.rs`) -/

/-- Embeds `Alias` from `src/config/types.rs`: command text, optional group name
(a weak reference into `Config.groups`), enabled flag, the serialization
shape flag `detailed`, and the zsh global-alias flag. -/
structure Alias where
  command : String
  group : Option String
  enabled : Bool
  detailed : Bool
  global : Bool
deriving Repr, DecidableEq

/-- Embeds `Alias::new` from `src/config/types.rs` (lines 19-27): `detailed` is
derived as `!enabled || global`, never taken as input. -/
def Alias.new (command : String) (group : Option String) (enabled global : Bool) : Alias :=
  { command := command, group := group, enabled := enabled,
    detailed := !enabled || global, global := global }

/-- The legacy `Alias::new(command, enabled, group, detailed)` calling
convention used by the older-generation files `src/config/spec.rs` and
`src/core/add.rs`: `detailed` is stored directly, and the legacy `Alias`
had no `global` field, so `global := false` (its only legacy-consistent
value). -/
def Alias.mkLegacy (command : String) (enabled : Bool) (group : Option String)
    (detailed : Bool) : Alias :=
  { command := command, group := group, enabled := enabled,
    detailed := detailed, global := false }

/-- Embeds `Config` from `src/config/types.rs`: insertion-ordered maps from alias
name to `Alias` and from group name to its enabled flag. -/
structure Config where
  aliases : List (String × Alias)
  groups : List (String × Bool)
deriving Repr, DecidableEq

/-- Embeds `Config::new`. -/
def Config.new : Config := { aliases := [], groups := [] }

/-- The `IndexMap` key-uniqueness invariant, carried as a hypothesis by
theorems quantifying over arbitrary configurations. -/
def Config.WF (c : Config) : Prop :=
  (c.aliases.map Prod.fst).Nodup ∧ (c.groups.map Prod.fst).Nodup

instance : DecidablePred Config.WF := fun c =>
  decidable_of_iff ((c.aliases.map Prod.fst).Nodup ∧ (c.groups.map Prod.fst).Nodup) Iff.rfl

/-- Embeds `Outcome` from `src/core/mod.rs`: the tri-state effect classification. -/
inductive Outcome where
  | Command (text : String)
  | ConfigChanged
  | NoChanges
deriving Repr, DecidableEq

/-- Embeds `Failure` from `src/core/mod.rs`, together with the extra variants
referenced by the newer-generation sources (`InvalidInput` in
`core/add.rs`, `UnexpectedBehavior` in `core/rename.rs`,
`UnsupportedGlobalAlias` and `InvalidAliasName` in `app/add.rs`; the last
two are also the error kinds of spec §7). -/
inductive Failure where
  | AliasDoesNotExist
  | GroupDoesNotExist
  | AliasAlreadyExists
  | GroupAlreadyExists
  | ConfigFileNotFound (path : String)
  | InvalidInput (input : String)
  | UnsupportedGlobalAlias
  | InvalidAliasName
  | UnexpectedBehavior
deriving Repr, DecidableEq

/-- Embeds `ShellType` from `src/app/shell.rs`. -/
inductive ShellType where
  | Bash
  | Zsh
deriving Repr, DecidableEq

/-! ## Association-list primitives mirroring `IndexMap` -/

/-- Embeds `IndexMap::contains_key`. -/
def containsKey (k : String) (l : List (String × α)) : Bool :=
  l.any (fun p => p.1 == k)

/-- Embeds `IndexMap::get`. -/
def lookupKey (k : String) (l : List (String × α)) : Option α :=
  (l.find? (fun p => p.1 == k)).map Prod.snd

/-- In-place update of the value stored at key `k` (what mutation through
`IndexMap::get_mut` or `values_mut` does: the entry keeps its position). -/
def modifyVal (k : String) (f : α → α) : List (String × α) → List (String × α)
  | [] => []
  | p :: ps => if p.1 == k then (p.1, f p.2) :: ps else p :: modifyVal k f ps

/-- Embeds `IndexMap::insert`: replaces the value in place when the key exists,
otherwise appends the new entry at the end. -/
def insertKey (k : String) (v : α) (l : List (String × α)) : List (String × α) :=
  if containsKey k l then modifyVal k (fun _ => v) l else l ++ [(k, v)]

/-- Embeds `IndexMap::shift_remove`: removes the entry, preserving the order of
the remaining entries. -/
def eraseKey (k : String) (l : List (String × α)) : List (String × α) :=
  l.eraseP (fun p => p.1 == k)

/-! ## Structured-format codec (`src/config/spec.rs`) -/

/-- Embeds `AliasSpecTypes` from `src/config/spec.rs`: the three on-disk entry
forms (`AliasSpec` and `GroupSpec` are inlined into the constructors). -/
inductive AliasSpecTypes where
  | Simple (command : String)
  | Detailed (command : String) (enabled : Bool)
  | Group (enabled : Bool) (aliases : List (String × AliasSpecTypes))
deriving Repr

/-- Embeds `convert_alias_to_spec` (`src/config/spec.rs` lines 65-74): the bare
string shorthand is used exactly when the alias is not `detailed`. -/
def convertAliasToSpec (a : Alias) : AliasSpecTypes :=
  if !a.detailed then .Simple a.command
  else .Detailed a.command a.enabled

/-- Embeds `convert_group_to_spec` (`src/config/spec.rs` lines 85-102): collects
the aliases currently attributed to the group, in the alias map's stored
order. -/
def convertGroupToSpec (groupName : String) (enabled : Bool)
    (aliases : List (String × Alias)) : AliasSpecTypes :=
  .Group enabled
    (aliases.foldl
      (fun acc p =>
        if p.2.group == some groupName then insertKey p.1 (convertAliasToSpec p.2) acc
        else acc)
      [])

/-- Embeds `convert_config_to_spec` (`src/config/spec.rs` lines 111-133): first
every alias not belonging to a present group becomes a top-level entry
(this degrades an alias with a dangling group reference to a top-level
entry), then every group becomes a group block. -/
def convertConfigToSpec (c : Config) : List (String × AliasSpecTypes) :=
  let entries := c.aliases.foldl
    (fun acc p =>
      match p.2.group with
      | some g =>
        if containsKey g c.groups then acc
        else insertKey p.1 (convertAliasToSpec p.2) acc
      | none => insertKey p.1 (convertAliasToSpec p.2) acc)
    []
  c.groups.foldl
    (fun acc q => insertKey q.1 (convertGroupToSpec q.1 q.2 c.aliases) acc)
    entries

/-- Embeds `convert_spec_to_alias` (`src/config/spec.rs` lines 143-151), with the
legacy constructor convention (see `Alias.mkLegacy`): a `Simple` entry
decodes as enabled and not detailed, a `Detailed` entry keeps its enabled
flag and is marked detailed; a nested `Group` panics
("nested groups are not supported"), embedded as `none`. -/
def convertSpecToAlias (spec : AliasSpecTypes) (group : Option String) : Option Alias :=
  match spec with
  | .Simple command => some (Alias.mkLegacy command true group false)
  | .Detailed command enabled => some (Alias.mkLegacy command enabled group true)
  | .Group _ _ => none

/-- Embeds `convert_spec_to_config` (`src/config/spec.rs` lines 160-182): a group
entry registers the group and attributes its nested aliases to it, any
other entry becomes an ungrouped alias; a group nested in a group
propagates the decode panic (`none`). -/
def convertSpecToConfig (entries : List (String × AliasSpecTypes)) : Option Config :=
  entries.foldlM
    (fun (acc : Config) (p : String × AliasSpecTypes) =>
      match p.2 with
      | .Group genabled galiases =>
        let acc1 : Config := { acc with groups := insertKey p.1 genabled acc.groups }
        galiases.foldlM
          (fun (a : Config) (q : String × AliasSpecTypes) =>
            (convertSpecToAlias q.2 (some p.1)).map
              (fun al => { a with aliases := insertKey q.1 al a.aliases }))
          acc1
      | other =>
        (convertSpecToAlias other none).map
          (fun al => { acc with aliases := insertKey p.1 al acc.aliases }))
    Config.new

/-! ## Core operations present in `src/core/` -/

/-- Embeds `add_alias_to_config` (`src/core/add.rs` lines 152-182, the
older-generation file): checks the alias name, then the group, then
inserts a legacy alias whose `detailed` flag is `!enabled`, and returns
`Command("alias {name}='{command}'")`. -/
def addAliasToConfig (config : Config) (aliasName command : String)
    (group : Option String) (enabled : Bool) : Except Failure Outcome × Config :=
  if containsKey aliasName config.aliases then (.error .AliasAlreadyExists, config)
  else if (match group with
           | some g => !containsKey g config.groups
           | none => false) then (.error .GroupDoesNotExist, config)
  else
    (.ok (.Command ("alias " ++ aliasName ++ "='" ++ command ++ "'")),
     { config with
         aliases :=
           insertKey aliasName
             (Alias.mkLegacy command enabled group (if enabled then false else true))
             config.aliases })

/-- Embeds `add_group_to_config` (`src/core/add.rs` lines 193-207). -/
def addGroupToConfig (config : Config) (group : String) (enabled : Bool) :
    Except Failure Outcome × Config :=
  if containsKey group config.groups then (.error .GroupAlreadyExists, config)
  else (.ok .ConfigChanged, { config with groups := insertKey group enabled config.groups })

/-- Embeds `add_group` (`src/core/add.rs` lines 131-139): maps
`GroupAlreadyExists` to `Ok(NoChanges)` (any other error is
`unreachable!`, which `add_group_to_config` indeed never produces). -/
def addGroup (config : Config) (name : String) (enabled : Bool) :
    Except Failure Outcome × Config :=
  match addGroupToConfig config name enabled with
  | (.error .GroupAlreadyExists, c) => (.ok .NoChanges, c)
  | r => r

/-- Modelled from the spec: `add_alias_str` is imported from
`core::add` by `core/enable.rs` and `core/sync.rs` but is not defined in
the `src/` snapshot (the present `core/add.rs` is an older generation).
Spec §6 and §8 give the statement forms `alias -g -- 'name'='cmd'` for a
global alias and `alias -- 'll'='ls -la'` for a plain one. -/
def addAliasStr (name : String) (a : Alias) : String :=
  if a.global then "alias -g -- '" ++ name ++ "'='" ++ a.command ++ "'"
  else "alias -- '" ++ name ++ "'='" ++ a.command ++ "'"

/-- Modelled from the spec: `get_aliases_from_single_group` is imported
by `core/enable.rs`, `core/disable.rs` and tests but is not defined in the
`src/` snapshot.  Per spec §4.3 it yields the names of the aliases of one
group (or of the ungrouped scope) in the alias map's stored order, failing
with `GroupDoesNotExist` for an absent group; the older `get_single_group`
in `src/core/list.rs` has exactly these semantics, and the shell argument
does not affect membership. -/
def getAliasesFromSingleGroup (config : Config) (name : Option String)
    (_shell : ShellType) : Except Failure (List String) :=
  match name with
  | some g =>
    if containsKey g config.groups then
      .ok ((config.aliases.filter (fun p => p.2.group == some g)).map Prod.fst)
    else .error .GroupDoesNotExist
  | none => .ok ((config.aliases.filter (fun p => p.2.group == none)).map Prod.fst)

/-- Embeds `enable_alias` (`src/core/enable.rs` lines 11-29): sets `enabled :=
true` in place (without touching `detailed`), then classifies: if the
alias's group is disabled the result is `ConfigChanged`, otherwise
`Command(add_alias_str(..))`.  The Rust indexing `config.groups[group]`
panics when the group reference dangles; the panic is `none`. -/
def enableAlias (config : Config) (name : String) :
    Option (Except Failure Outcome × Config) :=
  if !containsKey name config.aliases then some (.error .AliasDoesNotExist, config)
  else
    match lookupKey name config.aliases with
    | none => none
    | some a =>
      let a' := { a with enabled := true }
      let c' := { config with aliases := modifyVal name (fun _ => a') config.aliases }
      match a'.group with
      | some g =>
        match lookupKey g config.groups with
        | none => none
        | some false => some (.ok .ConfigChanged, c')
        | some true => some (.ok (.Command (addAliasStr name a')), c')
      | none => some (.ok (.Command (addAliasStr name a')), c')

/-- Embeds `disable_alias` (`src/core/disable.rs` lines 10-33): an already
disabled alias short-circuits to `NoChanges`; otherwise `enabled := false`
in place (without touching `detailed`), then the same group-based
classification, the command being `unalias '{name}'`. -/
def disableAlias (config : Config) (name : String) :
    Option (Except Failure Outcome × Config) :=
  if !containsKey name config.aliases then some (.error .AliasDoesNotExist, config)
  else
    match lookupKey name config.aliases with
    | none => none
    | some a =>
      if !a.enabled then some (.ok .NoChanges, config)
      else
        let a' := { a with enabled := false }
        let c' := { config with aliases := modifyVal name (fun _ => a') config.aliases }
        match a'.group with
        | some g =>
          match lookupKey g config.groups with
          | none => none
          | some false => some (.ok .ConfigChanged, c')
          | some true => some (.ok (.Command ("unalias '" ++ name ++ "'")), c')
        | none => some (.ok (.Command ("unalias '" ++ name ++ "'")), c')

/-- Embeds `enable_group` (`src/core/enable.rs` lines 31-58): sets the flag to
`true` (with no already-enabled check), keeps the members whose own
`enabled` is true, and emits one `add_alias_str` statement plus newline
per member, or `ConfigChanged` when there are none.  The member lookups
cannot fail (the names come from the alias map); the impossible case
contributes an empty string. -/
def enableGroup (config : Config) (name : String) (shell : ShellType) :
    Except Failure Outcome × Config :=
  if !containsKey name config.groups then (.error .GroupDoesNotExist, config)
  else
    let c' := { config with groups := modifyVal name (fun _ => true) config.groups }
    match getAliasesFromSingleGroup c' (some name) shell with
    | .error e => (.error e, c')
    | .ok members =>
      let members := members.filter
        (fun n => ((lookupKey n c'.aliases).map Alias.enabled).getD false)
      if members.isEmpty then (.ok .ConfigChanged, c')
      else
        (.ok (.Command (String.join (members.map
          (fun n =>
            (match lookupKey n c'.aliases with
             | some a => addAliasStr n a
             | none => "") ++ "\n")))), c')

/-- Embeds `disable_group` (`src/core/disable.rs` lines 35-67): an already
disabled group short-circuits to `NoChanges`; otherwise the flag is set to
`false`, the enabled members are collected, and one
`unalias '{name}'\n` statement plus an extra newline is emitted per
member (`ConfigChanged` when there are none). -/
def disableGroup (config : Config) (name : String) (shell : ShellType) :
    Except Failure Outcome × Config :=
  if !containsKey name config.groups then (.error .GroupDoesNotExist, config)
  else if lookupKey name config.groups = some false then (.ok .NoChanges, config)
  else
    let c' := { config with groups := modifyVal name (fun _ => false) config.groups }
    match getAliasesFromSingleGroup c' (some name) shell with
    | .error e => (.error e, c')
    | .ok members =>
      let members := members.filter
        (fun n => ((lookupKey n c'.aliases).map Alias.enabled).getD false)
      if members.isEmpty then (.ok .ConfigChanged, c')
      else
        (.ok (.Command (String.join (members.map
          (fun n => "unalias '" ++ n ++ "'\n" ++ "\n")))), c')

/-- Embeds `move_alias` (`src/core/move.rs` lines 4-23). -/
def moveAlias (config : Config) (aliasName : String) (newGroup : Option String) :
    Except Failure Outcome × Config :=
  if !containsKey aliasName config.aliases then (.error .AliasDoesNotExist, config)
  else if (match newGroup with
           | some g => !containsKey g config.groups
           | none => false) then (.error .GroupDoesNotExist, config)
  else
    (.ok .ConfigChanged,
     { config with
         aliases := modifyVal aliasName (fun a => { a with group := newGroup }) config.aliases })

/-- Embeds `remove_group` (`src/core/remove.rs` lines 42-50): removes only the
group entry; member aliases are untouched. -/
def removeGroup (config : Config) (name : String) : Except Failure Outcome × Config :=
  if containsKey name config.groups then
    (.ok .ConfigChanged, { config with groups := eraseKey name config.groups })
  else (.error .GroupDoesNotExist, config)

/-! ## Group-scoped partial sort (`src/core/sort.rs`) -/

/-- The comparator passed to `IndexMap::sort_by` by
`sort_aliases_in_group` (`src/core/sort.rs` lines 14-21): two entries
compare by key only when both carry exactly the target group; every other
pair compares `Equal`. -/
def sortCmp (target : Option String) (x y : String × Alias) : Ordering :=
  if x.2.group == y.2.group && x.2.group == target then compare x.1 y.1
  else .eq

/-- One step of stable insertion: insert `x` into the reversed
already-processed prefix (head = rightmost), moving `x` left past exactly
the elements it compares strictly `lt` against. -/
def insRev (c : β → β → Ordering) (x : β) : List β → List β
  | [] => [x]
  | y :: ys => if c x y = .lt then y :: insRev c x ys else x :: y :: ys

/-- The stable sort backing `IndexMap::sort_by`.  Rust's stable slice sort
runs plain insertion sort below its small-slice threshold, and for a
comparator that is not a total order (as `sortCmp` is not) it documents
the resulting order as unspecified beyond that; we embed the stable
left-to-right insertion sort, which is the exact small-slice behaviour and
the canonical stable reading of the comparator. -/
def sortByStable (c : β → β → Ordering) (l : List β) : List β :=
  (l.foldl (fun acc x => insRev c x acc) []).reverse

/-- Embeds `sort_aliases_in_group` (`src/core/sort.rs` lines 6-23). -/
def sortAliasesInGroup (config : Config) (group : Option String) :
    Except Failure Outcome × Config :=
  if (match group with
      | some g => !containsKey g config.groups
      | none => false) then (.error .GroupDoesNotExist, config)
  else
    (.ok .ConfigChanged,
     { config with aliases := sortByStable (sortCmp group) config.aliases })

/-! ## Grouping and the shell-resync codec (`src/core/list.rs`, `src/core/sync.rs`) -/

/-- Embeds `GroupId` from `src/core/list.rs`. -/
inductive GroupId where
  | Ungrouped
  | Named (g : String)
deriving Repr, DecidableEq

/-- The bucket key of an alias: its group name, or `Ungrouped`. -/
def gidOfGroup : Option String → GroupId
  | none => .Ungrouped
  | some g => .Named g

/-- Push an alias name into the bucket of its group, `none` when no such
bucket exists (the `.expect("group is in alias, but not in the group
vector")` panic of `get_all_groups`). -/
def pushBucket (gid : GroupId) (name : String) :
    List (GroupId × List String) → Option (List (GroupId × List String))
  | [] => none
  | b :: bs =>
    if b.1 = gid then some ((b.1, b.2 ++ [name]) :: bs)
    else (pushBucket gid name bs).map (b :: ·)

/-- Embeds `get_all_groups` (`src/core/list.rs` lines 29-52): buckets are
initialized for `Ungrouped` and every group, then every alias is pushed
into the bucket its `group` field names, panicking (`none`) when that
bucket does not exist.  The source returns a `HashMap`; it is represented
here as the association list in insertion order. -/
def getAllGroups (c : Config) : Option (List (GroupId × List String)) :=
  let init : List (GroupId × List String) :=
    (GroupId.Ungrouped, []) :: c.groups.map (fun p => (GroupId.Named p.1, []))
  c.aliases.foldlM (fun acc p => pushBucket (gidOfGroup p.2.group) p.1 acc) init

/-- Modelled from the spec: `get_all_aliases_grouped` is imported by
`core/sync.rs` and `app/list.rs` but is not defined in the `src/`
snapshot.  Per spec §4.5 the resync iterates groups and ungrouped aliases
in the Config's stored order; the grouping is therefore the ordered
counterpart of `get_all_groups` above (same bucket construction including
the panic on a dangling group reference). -/
def getAllAliasesGrouped (c : Config) : Option (List (GroupId × List String)) :=
  getAllGroups c

/-- Embeds `generate_alias_script_content` (`src/core/sync.rs` lines 13-35):
`unalias -a` first, then for every enabled bucket (ungrouped is always
enabled) one `add_alias_str` line per enabled member.  The
`config.groups.get(..).unwrap()` and `config.aliases.get(..).unwrap()`
cannot fail because the bucket ids and names originate from the config;
those impossible cases contribute benign defaults here, and the only
panic source is the bucket construction itself (`none`). -/
def generateAliasScriptContent (c : Config) : Option String :=
  (getAllAliasesGrouped c).map
    (fun buckets =>
      "unalias -a\n" ++ String.join (buckets.map
        (fun b =>
          if (match b.1 with
              | .Ungrouped => true
              | .Named g => (lookupKey g c.groups).getD false) then
            String.join (b.2.map
              (fun n =>
                match lookupKey n c.aliases with
                | some a => if a.enabled then addAliasStr n a ++ "\n" else ""
                | none => ""))
          else "")))

/-! ## Modelled newer-generation core operations used by `src/app/add.rs` -/

/-- Modelled from the spec: the three-argument `add_alias(config, name,
&Alias)` called by `src/app/add.rs` and `src/core/rename.rs` is not in the
`src/` snapshot (the present `core/add.rs` holds an older five-argument
version).  Spec §4.3: fails `AliasAlreadyExists` if the name is taken,
`GroupDoesNotExist` if `alias.group` is set and absent, otherwise inserts
the given alias and returns `Command` with the alias statement. -/
def addAlias (config : Config) (name : String) (a : Alias) :
    Except Failure Outcome × Config :=
  if containsKey name config.aliases then (.error .AliasAlreadyExists, config)
  else if (match a.group with
           | some g => !containsKey g config.groups
           | none => false) then (.error .GroupDoesNotExist, config)
  else
    (.ok (.Command (addAliasStr name a)),
     { config with aliases := insertKey name a config.aliases })

/-- Modelled from the spec: the `Outcome`-returning `edit_alias` called
by `src/app/add.rs` is not in the `src/` snapshot (the present
`core/edit.rs` holds an older unit-returning version).  Spec §4.3: fails
`AliasDoesNotExist`, otherwise replaces the definition and returns
`Command` reflecting it; `app/add.rs` passes the new command string, so
the replacement updates the command field. -/
def editAlias (config : Config) (name : String) (newCommand : String) :
    Except Failure Outcome × Config :=
  match lookupKey name config.aliases with
  | none => (.error .AliasDoesNotExist, config)
  | some a =>
    let a' := { a with command := newCommand }
    (.ok (.Command (addAliasStr name a')),
     { config with aliases := modifyVal name (fun _ => a') config.aliases })

/-! ## Interactive resolution layer (`src/app/add.rs`, `src/app/list.rs`) -/

/-- Embeds `enabled_symbol` (`src/app/list.rs` lines 12-18); the terminal color
escape wrapping is presentation-only and elided. -/
def enabledSymbol (enabled : Bool) : String :=
  if enabled then "✔" else "✘"

/-- Embeds `globe_symbol` (`src/app/list.rs` lines 20-27); color wrapping elided. -/
def globeSymbol (global : Bool) : String :=
  if global then " ⦾" else ""

/-- Embeds `format_alias_info` (`src/app/list.rs` lines 30-43). -/
def formatAliasInfo (config : Config) (aliasName : String) : Except Failure String :=
  match lookupKey aliasName config.aliases with
  | some a =>
    .ok (enabledSymbol a.enabled ++ globeSymbol a.global ++ " " ++ aliasName
         ++ " -> " ++ a.command)
  | none => .error .AliasDoesNotExist

/-- Embeds `handle_create_non_existent_group` (`src/app/add.rs` lines 68-82):
creates the group (enabled) on acceptance, `NoChanges` on decline. -/
def handleCreateNonExistentGroup (config : Config) (name : String) (createGroup : Bool) :
    Except Failure Outcome × Config :=
  if createGroup then addGroup config name true
  else (.ok .NoChanges, config)

/-- Embeds `handle_overwrite_existing_alias` (`src/app/add.rs` lines 19-65).  On
acceptance: when the new target group differs from the existing one the
alias is moved, recovering a `GroupDoesNotExist` by asking to create the
group (the `?` after the recovery and after the retried move propagates
errors); then the command is edited and `enabled`/`global` are overwritten
in place (`detailed` is not touched).  The `expect` on the group being
`Some` is the panic case `none`.  On decline: `NoChanges`. -/
def handleOverwriteExistingAlias (config : Config) (name : String) (a : Alias)
    (overwrite : Bool) (createGroup : String → Bool) :
    Option (Except Failure Outcome × Config) :=
  if overwrite then
    let moved : Option (Except Failure Unit × Config) :=
      if a.group ≠ ((lookupKey name config.aliases).bind Alias.group) then
        match moveAlias config name a.group with
        | (.error .GroupDoesNotExist, c1) =>
          match a.group with
          | none => none
          | some g =>
            match handleCreateNonExistentGroup c1 g (createGroup g) with
            | (.error e, c2) => some (.error e, c2)
            | (.ok _, c2) =>
              match moveAlias c2 name (some g) with
              | (.error e, c3) => some (.error e, c3)
              | (.ok _, c3) => some (.ok (), c3)
        | (_, c1) => some (.ok (), c1)
      else some (.ok (), config)
    match moved with
    | none => none
    | some (.error e, c') => some (.error e, c')
    | some (.ok _, c') =>
      match editAlias c' name a.command with
      | (.error e, c'') => some (.error e, c'')
      | (.ok command, c'') =>
        some (.ok command,
          { c'' with
              aliases := modifyVal name
                (fun old => { old with enabled := a.enabled, global := a.global })
                c''.aliases })
  else some (.ok .NoChanges, config)

/-- Embeds `handle_add_alias` (`src/app/add.rs` lines 85-144).  A successful add
passes through.  `AliasAlreadyExists` goes to the overwrite handler (the
confirmation is called with the formatted existing-alias info).
`GroupDoesNotExist` asks to create the group: on `ConfigChanged` the add
is retried once, its own outcome discarded in favour of `ConfigChanged`;
on `NoChanges` the result is `NoChanges`; the remaining arms are
`unreachable!` / `panic!` (`none`). -/
def handleAddAlias (config : Config) (name : String) (a : Alias)
    (overwrite : String → Bool) (createGroup : String → Bool) :
    Option (Except Failure Outcome × Config) :=
  match addAlias config name a with
  | (.ok o, c') => some (.ok o, c')
  | (.error .AliasAlreadyExists, c') =>
    match formatAliasInfo c' name with
    | .error _ => none
    | .ok info => handleOverwriteExistingAlias c' name a (overwrite info) createGroup
  | (.error .GroupDoesNotExist, c') =>
    match a.group with
    | none => none
    | some g =>
      match handleCreateNonExistentGroup c' g (createGroup g) with
      | (.ok .ConfigChanged, c2) =>
        match addAlias c2 name a with
        | (.error e, c3) => some (.error e, c3)
        | (.ok _, c3) => some (.ok .ConfigChanged, c3)
      | (.ok .NoChanges, c2) => some (.ok .NoChanges, c2)
      | (.ok _, _) => none
      | (.error _, _) => none
  | (.error _, _) => none

/-- Statement vocabulary: every alias's group reference, when present,
resolves to a key of `Config.groups` (the spec's "every alias group
reference resolvable").  Bool-valued so hypotheses can be discharged by
`decide` at concrete inputs. -/
def noDangling (c : Config) : Bool :=
  c.aliases.all (fun p =>
    match p.2.group with
    | some g => containsKey g c.groups
    | none => true)

/-! ## Concrete fixtures used in the claim theorems -/

/-- The alias produced by `add_alias_to_config` on an empty config with
`enabled = true`, and again by decoding its own encoding. -/
def c1Mid : Config :=
  { aliases := [("x", { command := "cmd", group := none, enabled := true,
                        detailed := false, global := false })],
    groups := [] }

/-- The config reached from `c1Mid` by `disable_alias "x"`: disabled but
still `detailed = false`. -/
def c1Reached : Config :=
  { aliases := [("x", { command := "cmd", group := none, enabled := false,
                        detailed := false, global := false })],
    groups := [] }

/-- A config holding one alias constructed by `Alias::new` as disabled and
non-global (hence `detailed = true`). -/
def c2Cfg : Config :=
  { aliases := [("x", Alias.new "cmd" none false false)], groups := [] }

/-- The config `enable_alias` produces from `c2Cfg`: enabled, but still
`detailed = true`. -/
def c2After : Config :=
  { aliases := [("x", { command := "cmd", group := none, enabled := true,
                        detailed := true, global := false })],
    groups := [] }

/-- The spec §8 example layout for the partial sort: an ungrouped alias
positioned between two group-`"g"` aliases whose names are out of order. -/
def c6Cfg : Config :=
  { aliases := [("b", Alias.new "cmd" (some "g") true false),
                ("x", Alias.new "cmd" none true false),
                ("a", Alias.new "cmd" (some "g") true false)],
    groups := [("g", true)] }

/-- An existing alias in group `"og"`, for the overwrite-collision path. -/
def c8Cfg : Config :=
  { aliases := [("x", Alias.new "old" (some "og") true false)],
    groups := [("og", true)] }

/-- A config with one enabled, ungrouped alias (for the over-reporting
counterexample). -/
def c9Cfg : Config :=
  { aliases := [("x", Alias.new "cmd" none true false)], groups := [] }

/-- An enabled group with one enabled member. -/
def c9GrpCfg : Config :=
  { aliases := [("x", Alias.new "cmd" (some "g") true false)],
    groups := [("g", true)] }

/-- One alias in group `"g"`, the group present and enabled. -/
def c10Cfg : Config :=
  { aliases := [("a", Alias.new "cmd" (some "g") true false)],
    groups := [("g", true)] }

/-- The config left by `remove_group "g"` on `c10Cfg`: the alias still
references the removed group. -/
def c10Dangling : Config :=
  { aliases := [("a", Alias.new "cmd" (some "g") true false)], groups := [] }

/-- Group `"g"` with two enabled members, one disabled member, and an
unrelated ungrouped alias in between. -/
def c4Cfg : Config :=
  { aliases := [("a1", Alias.new "c1" (some "g") true false),
                ("u", Alias.new "cu" none true false),
                ("a2", Alias.new "c2" (some "g") false false),
                ("a3", Alias.new "c3" (some "g") true false)],
    groups := [("g", true)] }

/-- Embeds `c4Cfg` with the group disabled. -/
def c4CfgOff : Config :=
  { aliases := c4Cfg.aliases, groups := [("g", false)] }

/-! ## Helper lemmas on the association-list primitives -/

theorem containsKey_iff_mem {l : List (String × α)} {k : String} :
    containsKey k l = true ↔ k ∈ l.map Prod.fst := by
  simp only [containsKey, List.any_eq_true, beq_iff_eq, List.mem_map]

theorem lookupKey_cons {a : String} {b : α} {l : List (String × α)} {k : String} :
    lookupKey k ((a, b) :: l) = if a == k then some b else lookupKey k l := by
  by_cases h : (a == k) = true
  · simp [lookupKey, List.find?_cons_of_pos, h]
  · simp only [Bool.not_eq_true] at h
    simp [lookupKey, List.find?_cons_of_neg, h]

theorem lookupKey_isSome {l : List (String × α)} {k : String} :
    (lookupKey k l).isSome = containsKey k l := by
  induction l with
  | nil => rfl
  | cons p ps ih =>
    obtain ⟨a, b⟩ := p
    rw [lookupKey_cons]
    by_cases h : (a == k) = true
    · simp [containsKey, h]
    · simp only [Bool.not_eq_true] at h
      simp [containsKey, h, ih]

theorem lookupKey_of_mem {l : List (String × α)} {p : String × α}
    (hnd : (l.map Prod.fst).Nodup) (hm : p ∈ l) : lookupKey p.1 l = some p.2 := by
  induction l with
  | nil => cases hm
  | cons q ps ih =>
    rcases List.mem_cons.mp hm with h | h
    · subst h
      obtain ⟨a, b⟩ := p
      simp [lookupKey_cons]
    · have hq : q.1 ≠ p.1 := by
        intro hEq
        have : p.1 ∈ ps.map Prod.fst := List.mem_map.mpr ⟨p, h, rfl⟩
        rw [List.map_cons] at hnd
        exact (List.nodup_cons.mp hnd).1 (hEq ▸ this)
      obtain ⟨a, b⟩ := q
      rw [lookupKey_cons, if_neg (by simpa using hq)]
      exact ih (by simpa using (List.nodup_cons.mp (by simpa using hnd)).2) h

theorem modifyVal_lookup_self {l : List (String × α)} {k : String} {a : α}
    (h : lookupKey k l = some a) : modifyVal k (fun _ => a) l = l := by
  induction l with
  | nil => rfl
  | cons p ps ih =>
    obtain ⟨q1, q2⟩ := p
    by_cases hq : (q1 == k) = true
    · rw [lookupKey_cons, if_pos hq] at h
      cases h
      simp [modifyVal, hq]
    · simp only [Bool.not_eq_true] at hq
      rw [lookupKey_cons, if_neg (by simp [hq])] at h
      simp [modifyVal, hq, ih h]

theorem stringFoldl_append (l : List String) :
    ∀ a : String, l.foldl (· ++ ·) a = a ++ l.foldl (· ++ ·) "" := by
  induction l with
  | nil => intro a; simp [List.foldl]
  | cons x xs ih =>
    intro a
    simp only [List.foldl]
    rw [ih (a ++ x), ih ("" ++ x), String.empty_append, String.append_assoc]

theorem stringJoin_cons (s : String) (l : List String) :
    String.join (s :: l) = s ++ String.join l := by
  simp only [String.join, List.foldl]
  rw [stringFoldl_append l ("" ++ s), String.empty_append]

theorem stringJoin_filter (l : List α) (q : α → Bool) (f : α → String) :
    String.join (l.map (fun x => if q x then f x else ""))
      = String.join ((l.filter q).map f) := by
  induction l with
  | nil => rfl
  | cons x xs ih =>
    by_cases hq : q x = true
    · simp only [List.map_cons, List.filter_cons, hq, if_pos]
      rw [stringJoin_cons, stringJoin_cons, ih]
    · simp only [Bool.not_eq_true] at hq
      simp only [List.map_cons, List.filter_cons, hq]
      rw [stringJoin_cons]
      simp only [Bool.false_eq_true, if_false, String.empty_append]
      rw [ih]

/-! ## Claim theorems: domain-model invariant and codec round-trip -/

/-- Claim C2 (code bug): `enable_alias` sets `enabled := true` without
recomputing `detailed`.  Starting from an alias constructed by
`Alias::new("cmd", None, enabled := false, global := false)` (which has
`detailed = true`), enabling it leaves `detailed = true` while
`!enabled || global` is now `false`, so the invariant
`detailed == (!enabled || global)` is violated by a provided operation. -/
theorem C2_detailed_invariant_broken_by_enable :
    (Alias.new "cmd" none false false).detailed = true
  ∧ enableAlias c2Cfg "x" = some (.ok (.Command "alias -- 'x'='cmd'"), c2After)
  ∧ ∃ a, lookupKey "x" c2After.aliases = some a
      ∧ a.detailed ≠ (!a.enabled || a.global) := by
  refine ⟨rfl, rfl, ⟨_, rfl, by decide⟩⟩

/-- Claim C1 (code bug): the decode∘encode round-trip fails on a Config
reachable through the Core Operations.  Adding alias `"x"` enabled
(`add_alias_to_config`) and then disabling it (`disable_alias`, which
does not recompute `detailed`) reaches `c1Reached` with
`enabled = false, detailed = false`; the encoder then emits the bare
shorthand and the decoder brings the alias back as enabled (`c1Mid`), so
`convert_spec_to_config (convert_config_to_spec c)` differs from `c` on
the `enabled` field. -/
theorem C1_roundtrip_fails_on_reachable_config :
    addAliasToConfig Config.new "x" "cmd" none true
      = (.ok (.Command "alias x='cmd'"), c1Mid)
  ∧ disableAlias c1Mid "x" = some (.ok (.Command "unalias 'x'"), c1Reached)
  ∧ convertSpecToConfig (convertConfigToSpec c1Reached) = some c1Mid
  ∧ (lookupKey "x" c1Reached.aliases).map Alias.enabled = some false
  ∧ (lookupKey "x" c1Mid.aliases).map Alias.enabled = some true
  ∧ c1Mid ≠ c1Reached := by
  refine ⟨rfl, rfl, rfl, rfl, rfl, by decide⟩

/-! ## Claim theorems: add_alias (C3) -/

/-- Claim C3 counterexample: on the empty Config the add succeeds, but the
returned statement is `alias ll='ls -la'`, not the claimed
`alias -- 'll'='ls -la'`. -/
theorem C3_counterexample :
    (addAliasToConfig Config.new "ll" "ls -la" none true).1
      = .ok (.Command "alias ll='ls -la'")
  ∧ (Except.ok (Outcome.Command "alias ll='ls -la'") : Except Failure Outcome)
      ≠ .ok (.Command "alias -- 'll'='ls -la'") :=
  ⟨rfl, by simp only [ne_eq, Except.ok.injEq, Outcome.Command.injEq]; decide⟩

/-- Claim C3 (amended): on an empty Config, adding `"ll" := "ls -la"`
(group `None`, enabled) succeeds, inserts the alias with
`detailed = false`, and returns `Command("alias ll='ls -la'")` (the code
emits the plain unquoted statement form); in general the add fails
`AliasAlreadyExists` when the name is taken and `GroupDoesNotExist` when
the requested group is set and absent, leaving the Config unchanged. -/
theorem C3_add_alias_amended :
    (addAliasToConfig Config.new "ll" "ls -la" none true
      = (.ok (.Command "alias ll='ls -la'"),
         { aliases := [("ll", { command := "ls -la", group := none, enabled := true,
                                detailed := false, global := false })], groups := [] }))
  ∧ ((lookupKey "ll" (addAliasToConfig Config.new "ll" "ls -la" none true).2.aliases).map
        Alias.detailed = some false)
  ∧ (∀ cfg name cmd g en, containsKey name cfg.aliases = true →
      addAliasToConfig cfg name cmd g en = (.error .AliasAlreadyExists, cfg))
  ∧ (∀ cfg name cmd gn en, containsKey name cfg.aliases = false →
      containsKey gn cfg.groups = false →
      addAliasToConfig cfg name cmd (some gn) en = (.error .GroupDoesNotExist, cfg)) := by
  refine ⟨rfl, rfl, ?_, ?_⟩
  · intro cfg name cmd g en h
    simp [addAliasToConfig, h]
  · intro cfg name cmd gn en h1 h2
    simp [addAliasToConfig, h1, h2]

/-- Witness for C3: the two failure branches at concrete inputs. -/
theorem C3_witness :
    addAliasToConfig c8Cfg "x" "zzz" none true = (.error .AliasAlreadyExists, c8Cfg)
  ∧ addAliasToConfig Config.new "n" "zzz" (some "nope") true
      = (.error .GroupDoesNotExist, Config.new) :=
  ⟨C3_add_alias_amended.2.2.1 c8Cfg "x" "zzz" none true (by decide),
   C3_add_alias_amended.2.2.2 Config.new "n" "zzz" "nope" true (by decide) (by decide)⟩

/-! ## Claim theorems: effect-classification over-reporting (C9) -/

/-- Claim C9 counterexample: `enable_alias` on an alias that is already
enabled (ungrouped, so fully visible) still returns `Command`, although
the visible alias set is unchanged (the Config comes back identical). -/
theorem C9_counterexample :
    enableAlias c9Cfg "x" = some (.ok (.Command "alias -- 'x'='cmd'"), c9Cfg) := rfl

/-- Claim C9 (amended): only the disable direction guards against no-ops:
`disable_alias` on a disabled alias and `disable_group` on a disabled
group return `NoChanges` with the Config untouched, but `enable_alias`
on an already-enabled visible alias returns `Command` (re-emitting the
definition) with the Config unchanged, and `enable_group` on an
already-enabled group with an enabled member likewise returns `Command`. -/
theorem C9_amended :
    (∀ cfg name a, lookupKey name cfg.aliases = some a → a.enabled = true →
      a.group = none →
      enableAlias cfg name = some (.ok (.Command (addAliasStr name a)), cfg))
  ∧ (∀ cfg name a, lookupKey name cfg.aliases = some a → a.enabled = false →
      disableAlias cfg name = some (.ok .NoChanges, cfg))
  ∧ (∀ cfg g sh, lookupKey g cfg.groups = some false →
      disableGroup cfg g sh = (.ok .NoChanges, cfg))
  ∧ enableGroup c9GrpCfg "g" ShellType.Bash
      = (.ok (.Command "alias -- 'x'='cmd'\n"), c9GrpCfg) := by
  refine ⟨?_, ?_, ?_, rfl⟩
  · intro cfg name a hl he hg
    obtain ⟨ac, ag, ae, ad, agl⟩ := a
    simp only at he hg
    subst he; subst hg
    have hck : containsKey name cfg.aliases = true := by
      rw [← lookupKey_isSome, hl]; rfl
    have hmv : modifyVal name
        (fun _ => ({ command := ac, group := none, enabled := true,
                     detailed := ad, global := agl } : Alias)) cfg.aliases
        = cfg.aliases := modifyVal_lookup_self hl
    simp [enableAlias, hck, hl, hmv]
  · intro cfg name a hl he
    have hck : containsKey name cfg.aliases = true := by
      rw [← lookupKey_isSome, hl]; rfl
    simp [disableAlias, hck, hl, he]
  · intro cfg g sh h
    have hck : containsKey g cfg.groups = true := by
      rw [← lookupKey_isSome, h]; rfl
    simp [disableGroup, hck, h]

/-- Witness for C9: the over-reporting enable branch and the two guarded
disable branches, at concrete inputs. -/
theorem C9_witness :
    enableAlias c9Cfg "x"
      = some (.ok (.Command (addAliasStr "x" (Alias.new "cmd" none true false))), c9Cfg)
  ∧ disableAlias c2Cfg "x" = some (.ok .NoChanges, c2Cfg)
  ∧ disableGroup c4CfgOff "g" ShellType.Bash = (.ok .NoChanges, c4CfgOff) :=
  ⟨C9_amended.1 c9Cfg "x" (Alias.new "cmd" none true false) rfl rfl rfl,
   C9_amended.2.1 c2Cfg "x" (Alias.new "cmd" none false false) rfl rfl,
   C9_amended.2.2.1 c4CfgOff "g" ShellType.Bash rfl⟩

/-! ## Claim theorems: interactive resolution layer (C7, C8) -/

/-- Claim C7 counterexample: the accepted missing-group recovery creates
the group and retries the add (which succeeds, inserting the alias), but
the overall result is `Ok(ConfigChanged)`, not the Command the retried
add produced — and `ConfigChanged` is not `Command s` for any `s`. -/
theorem C7_counterexample :
    handleAddAlias Config.new "x" (Alias.new "c" (some "g") true false)
        (fun _ => false) (fun _ => true)
      = some (.ok .ConfigChanged,
          { aliases := [("x", Alias.new "c" (some "g") true false)],
            groups := [("g", true)] })
  ∧ ∀ s, (Outcome.ConfigChanged : Outcome) ≠ .Command s :=
  ⟨rfl, fun _ h => Outcome.noConfusion h⟩

/-- Claim C7 (amended): on `GroupDoesNotExist`, acceptance creates the
group (enabled) and retries the add exactly once, but the retried add's
own outcome is discarded: the overall result is `Ok(ConfigChanged)` (with
the group and the alias inserted); decline yields `NoChanges` with the
Config unchanged. -/
theorem C7_amended :
    ∀ cfg name a g ov,
      a.group = some g →
      containsKey g cfg.groups = false →
      containsKey name cfg.aliases = false →
      (handleAddAlias cfg name a ov (fun _ => true)
        = some (.ok .ConfigChanged,
            { aliases := cfg.aliases ++ [(name, a)],
              groups := cfg.groups ++ [(g, true)] }))
    ∧ (handleAddAlias cfg name a ov (fun _ => false) = some (.ok .NoChanges, cfg)) := by
  intro cfg name a g ov hg hgc hnc
  have h1 : addAlias cfg name a = (.error .GroupDoesNotExist, cfg) := by
    simp [addAlias, hnc, hg, hgc]
  have h2 : addGroup cfg g true
      = (.ok .ConfigChanged, { cfg with groups := cfg.groups ++ [(g, true)] }) := by
    simp [addGroup, addGroupToConfig, hgc, insertKey]
  have h3 : containsKey g (cfg.groups ++ [(g, true)]) = true := by
    simp [containsKey, List.any_append]
  have h4 : addAlias { cfg with groups := cfg.groups ++ [(g, true)] } name a
      = (.ok (.Command (addAliasStr name a)),
         { aliases := cfg.aliases ++ [(name, a)],
           groups := cfg.groups ++ [(g, true)] }) := by
    simp [addAlias, hnc, hg, h3, insertKey]
  constructor
  · simp [handleAddAlias, h1, hg, handleCreateNonExistentGroup, h2, h4]
  · simp [handleAddAlias, h1, hg, handleCreateNonExistentGroup]

/-- Witness for C7: the amended claim at the concrete empty-Config input
(accept and decline branches). -/
theorem C7_witness :
    (handleAddAlias Config.new "y" (Alias.new "c" (some "h") true false)
        (fun _ => false) (fun _ => true)
      = some (.ok .ConfigChanged,
          { aliases := [("y", Alias.new "c" (some "h") true false)],
            groups := [("h", true)] }))
  ∧ (handleAddAlias Config.new "y" (Alias.new "c" (some "h") true false)
        (fun _ => false) (fun _ => false) = some (.ok .NoChanges, Config.new)) :=
  C7_amended Config.new "y" (Alias.new "c" (some "h") true false) "h"
    (fun _ => false) rfl rfl rfl

/-- Claim C8 counterexample: overwrite accepted, the new target group
absent, and group creation declined — the top-level operation surfaces
`Err(GroupDoesNotExist)` (the retried move's error propagates), it does
not return `Ok(NoChanges)`; the Config is unchanged. -/
theorem C8_counterexample :
    handleAddAlias c8Cfg "x" (Alias.new "new" (some "ng") true false)
        (fun _ => true) (fun _ => false)
      = some (.error .GroupDoesNotExist, c8Cfg)
  ∧ (some (Except.error Failure.GroupDoesNotExist, c8Cfg) :
       Option (Except Failure Outcome × Config))
      ≠ some (.ok .NoChanges, c8Cfg) := by
  refine ⟨rfl, by simp⟩

/-- Claim C8 (amended): in the collision recovery, when the confirmation
accepts overwriting, the new target group differs from the existing one
and is absent, and creating it is declined, the operation returns
`Err(GroupDoesNotExist)` (the error is surfaced, not converted to
`NoChanges`), leaving the existing alias and the group map unchanged. -/
theorem C8_amended :
    ∀ cfg name aOld a ng,
      lookupKey name cfg.aliases = some aOld →
      a.group = some ng →
      aOld.group ≠ some ng →
      containsKey ng cfg.groups = false →
      handleAddAlias cfg name a (fun _ => true) (fun _ => false)
        = some (.error .GroupDoesNotExist, cfg) := by
  intro cfg name aOld a ng hl hg hne hngc
  have hck : containsKey name cfg.aliases = true := by
    rw [← lookupKey_isSome, hl]; rfl
  have h1 : addAlias cfg name a = (.error .AliasAlreadyExists, cfg) := by
    simp [addAlias, hck]
  have hmv : moveAlias cfg name (some ng) = (.error .GroupDoesNotExist, cfg) := by
    simp [moveAlias, hck, hngc]
  have hdiff : a.group ≠ (lookupKey name cfg.aliases).bind Alias.group := by
    rw [hl, hg]
    simpa using fun h => hne h.symm
  have hne' : ¬ (some ng = aOld.group) := fun h => hne h.symm
  simp [handleAddAlias, h1, formatAliasInfo, hl, handleOverwriteExistingAlias,
        hdiff, hmv, hne', hg, handleCreateNonExistentGroup]

/-- Witness for C8: the amended claim at the concrete collision input. -/
theorem C8_witness :
    handleAddAlias c8Cfg "x" (Alias.new "neu" (some "ng") true false)
        (fun _ => true) (fun _ => false)
      = some (.error .GroupDoesNotExist, c8Cfg) :=
  C8_amended c8Cfg "x" (Alias.new "old" (some "og") true false)
    (Alias.new "neu" (some "ng") true false) "ng" rfl rfl (by decide) rfl

/-! ## Further helper lemmas: keys under modification, name/lookup filters -/

theorem modifyVal_map_fst (k : String) (f : α → α) :
    ∀ l : List (String × α), (modifyVal k f l).map Prod.fst = l.map Prod.fst := by
  intro l
  induction l with
  | nil => rfl
  | cons p ps ih =>
    by_cases h : (p.1 == k) = true
    · simp [modifyVal, h]
    · simp only [Bool.not_eq_true] at h
      simp [modifyVal, h, ih]

theorem filter_names_lookup {l : List (String × α)} (hnd : (l.map Prod.fst).Nodup)
    (q : String × α → Bool) (f : α → Bool) :
    ((l.filter q).map Prod.fst).filter
        (fun n => ((lookupKey n l).map f).getD false)
      = (l.filter (fun p => q p && f p.2)).map Prod.fst := by
  induction l with
  | nil => rfl
  | cons p ps ih =>
    have hp : p.1 ∉ ps.map Prod.fst := (List.nodup_cons.mp (by simpa using hnd)).1
    have hnd' : (ps.map Prod.fst).Nodup := (List.nodup_cons.mp (by simpa using hnd)).2
    have hlook : ∀ n ∈ (ps.filter q).map Prod.fst,
        (((lookupKey n (p :: ps)).map f).getD false)
          = (((lookupKey n ps).map f).getD false) := by
      intro n hn
      have hnp : ¬ (p.1 = n) := by
        intro h
        apply hp
        rcases List.mem_map.mp hn with ⟨x, hx, rfl⟩
        exact h ▸ List.mem_map.mpr ⟨x, List.mem_of_mem_filter hx, rfl⟩
      obtain ⟨a, b⟩ := p
      rw [lookupKey_cons, if_neg (by simpa using hnp)]
    have hself : ((lookupKey p.1 (p :: ps)).map f).getD false = f p.2 := by
      obtain ⟨a, b⟩ := p
      rw [lookupKey_cons, if_pos (by simp)]
      rfl
    rcases Bool.eq_false_or_eq_true (q p) with hq | hq <;>
      rcases Bool.eq_false_or_eq_true (f p.2) with hf | hf <;>
        simp [List.filter_cons, hq, hf, hself, List.filter_congr hlook, ih hnd']

/-! ## Claim theorem: disable_group (C4) -/

/-- Claim C4 (confirmed): for a present, enabled group `g`, `disable_group`
sets the flag to `false` and returns a `Command` whose text is exactly one
`unalias '{name}'` statement (each followed by its newline and a blank
line) per member alias whose own `enabled` is true, in the Config's stored
alias order — `ConfigChanged` when there is no such member; on an already
disabled group it returns `NoChanges` and changes nothing; on an absent
group it fails `GroupDoesNotExist` and changes nothing. -/
theorem C4_disable_group :
    ∀ cfg g sh, Config.WF cfg →
      (lookupKey g cfg.groups = some true →
        disableGroup cfg g sh =
          (let members := (cfg.aliases.filter
              (fun p => p.2.group == some g && p.2.enabled)).map Prod.fst
           ((if members.isEmpty then .ok .ConfigChanged
             else .ok (.Command (String.join
               (members.map (fun n => "unalias '" ++ n ++ "'\n" ++ "\n"))))),
            { cfg with groups := modifyVal g (fun _ => false) cfg.groups })))
    ∧ (lookupKey g cfg.groups = some false →
        disableGroup cfg g sh = (.ok .NoChanges, cfg))
    ∧ (containsKey g cfg.groups = false →
        disableGroup cfg g sh = (.error .GroupDoesNotExist, cfg)) := by
  intro cfg g sh hwf
  refine ⟨?_, ?_, ?_⟩
  · intro h
    have hck : containsKey g cfg.groups = true := by
      rw [← lookupKey_isSome, h]; rfl
    have hne : ¬ (lookupKey g cfg.groups = some false) := by
      rw [h]; simp
    have hck' : containsKey g (modifyVal g (fun _ => false) cfg.groups) = true := by
      rw [containsKey_iff_mem, modifyVal_map_fst, ← containsKey_iff_mem]
      exact hck
    have hmem := filter_names_lookup (l := cfg.aliases) hwf.1
      (fun p => p.2.group == some g) Alias.enabled
    simp only [disableGroup, hck, Bool.not_true, Bool.false_eq_true, if_false,
      if_neg hne, getAliasesFromSingleGroup, hck', if_pos, hmem]
    split <;> simp_all
  · intro h
    have hck : containsKey g cfg.groups = true := by
      rw [← lookupKey_isSome, h]; rfl
    simp [disableGroup, hck, h]
  · intro h
    simp [disableGroup, h]

/-- Witness for C4: the three branches at concrete inputs — two enabled
members (`a1`, `a3`) produce exactly two `unalias` statements in stored
order; the disabled-group and absent-group branches change nothing. -/
theorem C4_witness :
    disableGroup c4Cfg "g" ShellType.Bash
      = (.ok (.Command "unalias 'a1'\n\nunalias 'a3'\n\n"),
         { aliases := c4Cfg.aliases, groups := [("g", false)] })
  ∧ disableGroup c4CfgOff "g" ShellType.Bash = (.ok .NoChanges, c4CfgOff)
  ∧ disableGroup Config.new "g" ShellType.Bash
      = (.error .GroupDoesNotExist, Config.new) := by
  have h1 := C4_disable_group c4Cfg "g" ShellType.Bash (by decide)
  have h2 := C4_disable_group c4CfgOff "g" ShellType.Bash (by decide)
  have h3 := C4_disable_group Config.new "g" ShellType.Bash (by decide)
  refine ⟨?_, h2.2.1 rfl, h3.2.2 rfl⟩
  rw [h1.1 rfl]
  rfl

/-! ## Helper lemmas: bucket construction of get_all_groups -/

theorem pushBucket_isSome {gid : GroupId} {n : String} :
    ∀ B : List (GroupId × List String),
      (pushBucket gid n B).isSome = true ↔ gid ∈ B.map Prod.fst := by
  intro B
  induction B with
  | nil => simp [pushBucket]
  | cons b bs ih =>
    by_cases h : b.1 = gid
    · simp [pushBucket, h]
    · have h' : ¬ (gid = b.1) := fun hEq => h hEq.symm
      simp [pushBucket, h, ih, h']

theorem pushBucket_map_fst {gid : GroupId} {n : String} :
    ∀ {B B' : List (GroupId × List String)}, pushBucket gid n B = some B' →
      B'.map Prod.fst = B.map Prod.fst := by
  intro B
  induction B with
  | nil => intro B' h; cases h
  | cons b bs ih =>
    intro B' h
    by_cases hb : b.1 = gid
    · simp only [pushBucket, if_pos hb] at h
      cases h
      simp
    · simp only [pushBucket, if_neg hb, Option.map_eq_some'] at h
      obtain ⟨B₂, h₂, rfl⟩ := h
      simp [ih h₂]

theorem foldlM_pushBucket_isSome (l : List (String × Alias)) :
    ∀ B : List (GroupId × List String),
      ((l.foldlM (fun acc p => pushBucket (gidOfGroup p.2.group) p.1 acc) B).isSome = true)
        ↔ (∀ p ∈ l, gidOfGroup p.2.group ∈ B.map Prod.fst) := by
  induction l with
  | nil => intro B; simp [List.foldlM]
  | cons p ps ih =>
    intro B
    rw [List.foldlM_cons]
    cases hpb : pushBucket (gidOfGroup p.2.group) p.1 B with
    | none =>
      have hnm : gidOfGroup p.2.group ∉ B.map Prod.fst := by
        rw [← pushBucket_isSome (n := p.1)]
        simp [hpb]
      simp only [Option.bind_eq_bind, Option.none_bind, Option.isSome_none,
        Bool.false_eq_true, false_iff]
      intro hall
      exact hnm (hall p (List.mem_cons_self p ps))
    | some B₁ =>
      have hfst := pushBucket_map_fst hpb
      have hmem : gidOfGroup p.2.group ∈ B.map Prod.fst := by
        rw [← pushBucket_isSome (n := p.1)]
        simp [hpb]
      rcases List.mem_map.mp hmem with ⟨q, hq, hq1⟩
      simp only [Option.bind_eq_bind, Option.some_bind, ih B₁, hfst,
        List.forall_mem_cons]
      simp [hmem]

/-- The panic-freedom criterion for `get_all_groups`: the bucket fold
succeeds exactly when every alias's group reference resolves. -/
theorem getAllGroups_isSome_iff (c : Config) :
    (getAllGroups c).isSome = true
      ↔ ∀ p ∈ c.aliases, ∀ g, p.2.group = some g → containsKey g c.groups = true := by
  unfold getAllGroups
  rw [foldlM_pushBucket_isSome]
  refine forall_congr' (fun p => forall_congr' (fun hp => ?_))
  cases hpg : p.2.group with
  | none => simp [gidOfGroup, hpg]
  | some g => simp [gidOfGroup, hpg, containsKey_iff_mem, List.mem_map]

/-! ## Claim theorem: panics on dangling group references (C10) -/

/-- Claim C10 (confirmed): `get_all_groups` — and
`generate_alias_script_content`, which consumes the grouping — is
panic-free exactly when every alias's `group` field, if `Some g`, names a
key of `Config.groups`; after `remove_group` (which deletes only the
group entry, leaving the member's `group` field pointing at the removed
name) both panic (`none`), while the encoder instead degrades the
dangling alias to a top-level entry. -/
theorem C10_dangling_group_panics :
    (∀ c : Config, (getAllGroups c).isSome = true
        ↔ ∀ p ∈ c.aliases, ∀ g, p.2.group = some g → containsKey g c.groups = true)
  ∧ (∀ c : Config, (generateAliasScriptContent c).isSome = true
        ↔ ∀ p ∈ c.aliases, ∀ g, p.2.group = some g → containsKey g c.groups = true)
  ∧ removeGroup c10Cfg "g" = (.ok .ConfigChanged, c10Dangling)
  ∧ lookupKey "a" c10Dangling.aliases = some (Alias.new "cmd" (some "g") true false)
  ∧ getAllGroups c10Dangling = none
  ∧ generateAliasScriptContent c10Dangling = none
  ∧ lookupKey "a" (convertConfigToSpec c10Dangling) = some (.Simple "cmd") := by
  refine ⟨getAllGroups_isSome_iff, ?_, rfl, rfl, rfl, rfl, rfl⟩
  intro c
  rw [generateAliasScriptContent, getAllAliasesGrouped, Option.isSome_map']
  exact getAllGroups_isSome_iff c

/-! ## Helper lemmas: the ordered grouping under well-formedness -/

theorem noDangling_iff (c : Config) :
    noDangling c = true
      ↔ ∀ p ∈ c.aliases, ∀ g, p.2.group = some g → containsKey g c.groups = true := by
  simp only [noDangling, List.all_eq_true]
  refine forall_congr' (fun p => forall_congr' (fun hp => ?_))
  cases hpg : p.2.group with
  | none => simp
  | some g => simp

theorem pushBucket_eq {gid : GroupId} {n : String} :
    ∀ {B : List (GroupId × List String)},
      (B.map Prod.fst).Nodup → gid ∈ B.map Prod.fst →
      pushBucket gid n B
        = some (B.map (fun b => if b.1 = gid then (b.1, b.2 ++ [n]) else b)) := by
  intro B
  induction B with
  | nil => intro _ h; cases h
  | cons b bs ih =>
    intro hnd hmem
    rw [List.map_cons] at hnd hmem
    obtain ⟨hhead, htail⟩ := List.nodup_cons.mp hnd
    by_cases hb : b.1 = gid
    · have hnin : gid ∉ bs.map Prod.fst := hb ▸ hhead
      have hrest : bs.map (fun x => if x.1 = gid then (x.1, x.2 ++ [n]) else x)
          = bs := by
        have hpt : ∀ x ∈ bs, (if x.1 = gid then (x.1, x.2 ++ [n]) else x) = x := by
          intro x hx
          rw [if_neg]
          intro hEq
          exact hnin (hEq ▸ List.mem_map.mpr ⟨x, hx, rfl⟩)
        rw [List.map_congr_left hpt]
        simp
      simp [pushBucket, hb, hrest]
    · have hmem2 : gid ∈ bs.map Prod.fst := by
        rcases List.mem_cons.mp hmem with h | h
        · exact absurd h.symm hb
        · exact h
      have hstep : pushBucket gid n (b :: bs) = (pushBucket gid n bs).map (b :: ·) := by
        simp [pushBucket, hb]
      rw [hstep, ih htail hmem2, List.map_cons, if_neg hb]
      rfl

theorem foldlM_pushBucket_eq (l : List (String × Alias)) :
    ∀ B : List (GroupId × List String), (B.map Prod.fst).Nodup →
      (∀ p ∈ l, gidOfGroup p.2.group ∈ B.map Prod.fst) →
      l.foldlM (fun acc p => pushBucket (gidOfGroup p.2.group) p.1 acc) B
        = some (B.map (fun b =>
            (b.1, b.2 ++ (l.filter (fun p => gidOfGroup p.2.group == b.1)).map Prod.fst))) := by
  induction l with
  | nil =>
    intro B _ _
    simp [List.foldlM]
  | cons p ps ih =>
    intro B hnd hall
    have hmem : gidOfGroup p.2.group ∈ B.map Prod.fst :=
      hall p (List.mem_cons_self p ps)
    rw [List.foldlM_cons, pushBucket_eq hnd hmem]
    have hfst : (B.map (fun b =>
        if b.1 = gidOfGroup p.2.group then (b.1, b.2 ++ [p.1]) else b)).map Prod.fst
        = B.map Prod.fst := by
      rw [List.map_map]
      apply List.map_congr_left
      intro b _
      by_cases hb : b.1 = gidOfGroup p.2.group <;> simp [hb]
    have hall' : ∀ q ∈ ps, gidOfGroup q.2.group ∈ (B.map (fun b =>
        if b.1 = gidOfGroup p.2.group then (b.1, b.2 ++ [p.1]) else b)).map Prod.fst := by
      intro q hq
      rw [hfst]
      exact hall q (List.mem_cons_of_mem p hq)
    simp only [Option.bind_eq_bind, Option.some_bind]
    rw [ih _ (hfst ▸ hnd) hall', List.map_map]
    congr 1
    apply List.map_congr_left
    intro b _
    by_cases hb : b.1 = gidOfGroup p.2.group
    · have hbeq : (gidOfGroup p.2.group == b.1) = true := by
        simp [hb]
      simp [Function.comp, if_pos hb, List.filter_cons, hbeq, List.append_assoc]
    · have hbeq : (gidOfGroup p.2.group == b.1) = false := by
        simp
        exact fun h => hb h.symm
      simp [Function.comp, if_neg hb, List.filter_cons, hbeq]

theorem gid_beq_ungrouped (o : Option String) :
    (gidOfGroup o == GroupId.Ungrouped) = (o == none) := by
  cases o <;> rfl

theorem gid_beq_named (o : Option String) (g : String) :
    (gidOfGroup o == GroupId.Named g) = (o == some g) := by
  cases o with
  | none => rfl
  | some x =>
    by_cases h : x = g <;> simp [gidOfGroup, h]

/-- Under well-formedness and resolvable group references, the grouping is
the ungrouped names followed by each group's member names, all in the
Config's stored order. -/
theorem getAllGroups_eq (c : Config) (hwf : Config.WF c) (hall : noDangling c = true) :
    getAllGroups c = some
      ((GroupId.Ungrouped, (c.aliases.filter (fun p => p.2.group == none)).map Prod.fst)
        :: c.groups.map (fun q =>
             (GroupId.Named q.1,
              (c.aliases.filter (fun p => p.2.group == some q.1)).map Prod.fst))) := by
  have hall2 := (noDangling_iff c).mp hall
  have hids : (((GroupId.Ungrouped, ([] : List String))
      :: c.groups.map (fun p => (GroupId.Named p.1, []))).map Prod.fst)
      = GroupId.Ungrouped :: (c.groups.map Prod.fst).map GroupId.Named := by
    simp [List.map_map]
  have hndids : (((GroupId.Ungrouped, ([] : List String))
      :: c.groups.map (fun p => (GroupId.Named p.1, []))).map Prod.fst).Nodup := by
    rw [hids, List.nodup_cons]
    constructor
    · intro h
      rcases List.mem_map.mp h with ⟨g, _, hg⟩
      exact GroupId.noConfusion hg
    · exact hwf.2.map (fun a b h => GroupId.Named.inj h)
  have hmemall : ∀ p ∈ c.aliases, gidOfGroup p.2.group
      ∈ (((GroupId.Ungrouped, ([] : List String))
          :: c.groups.map (fun p => (GroupId.Named p.1, []))).map Prod.fst) := by
    intro p hp
    rw [hids]
    cases hpg : p.2.group with
    | none => simp [gidOfGroup]
    | some g =>
      have hg := hall2 p hp g hpg
      rw [containsKey_iff_mem] at hg
      simp only [gidOfGroup, List.mem_cons]
      right
      exact List.mem_map.mpr ⟨g, hg, rfl⟩
  unfold getAllGroups
  rw [foldlM_pushBucket_eq c.aliases _ hndids hmemall]
  congr 1
  rw [List.map_cons]
  congr 1
  · simp only [List.nil_append]
    rw [List.filter_congr (fun p _ => gid_beq_ungrouped p.2.group)]
  · rw [List.map_map]
    apply List.map_congr_left
    intro q _
    simp only [Function.comp, List.nil_append]
    rw [List.filter_congr (fun p _ => gid_beq_named p.2.group q.1)]

/-- The per-name emission of the resync codec, rewritten over the
underlying entries: looking the names back up yields the entries
themselves (well-formedness makes the lookups unambiguous). -/
theorem map_names_lookup_sync {l' : List (String × Alias)} {c : Config}
    (hnd : (c.aliases.map Prod.fst).Nodup) (hsub : ∀ p ∈ l', p ∈ c.aliases) :
    (l'.map Prod.fst).map (fun n =>
        match lookupKey n c.aliases with
        | some a => if a.enabled then addAliasStr n a ++ "\n" else ""
        | none => "")
      = l'.map (fun p => if p.2.enabled then addAliasStr p.1 p.2 ++ "\n" else "") := by
  rw [List.map_map]
  apply List.map_congr_left
  intro p hp
  simp only [Function.comp]
  rw [lookupKey_of_mem hnd (hsub p hp)]

/-! ## Claim theorem: shell resync codec (C5) -/

/-- Claim C5 (confirmed): `generate_alias_script_content` is a pure
function of the Config alone (deterministic by construction); on a
well-formed Config with resolvable group references it emits `unalias -a`
first and then, iterating the ungrouped aliases and then each group in
the Config's stored order, exactly one alias-definition line for each
alias that is enabled and whose owning group (if any) is enabled. -/
theorem C5_generate_script (c : Config) (hwf : Config.WF c) (hall : noDangling c = true) :
    generateAliasScriptContent c
      = some ("unalias -a\n"
          ++ String.join ((c.aliases.filter
                (fun p => p.2.group == none && p.2.enabled)).map
               (fun p => addAliasStr p.1 p.2 ++ "\n"))
          ++ String.join (c.groups.map (fun q =>
               if q.2 then
                 String.join ((c.aliases.filter
                     (fun p => p.2.group == some q.1 && p.2.enabled)).map
                   (fun p => addAliasStr p.1 p.2 ++ "\n"))
               else ""))) := by
  have hffN : (c.aliases.filter (fun p => p.2.group == none)).filter
      (fun p => p.2.enabled)
      = c.aliases.filter (fun p => p.2.group == none && p.2.enabled) := by
    rw [List.filter_filter]
    exact List.filter_congr (fun p _ => by rw [Bool.and_comm])
  rw [generateAliasScriptContent, getAllAliasesGrouped, getAllGroups_eq c hwf hall,
    Option.map_some']
  congr 1
  simp only [List.map_cons, stringJoin_cons, List.map_map]
  rw [← String.append_assoc]
  congr 1
  · congr 1
    rw [if_pos trivial, ← List.map_map,
      map_names_lookup_sync hwf.1 (fun p hp => List.mem_of_mem_filter hp),
      stringJoin_filter, hffN]
  · congr 1
    apply List.map_congr_left
    intro q hq
    simp only [Function.comp]
    rw [lookupKey_of_mem hwf.2 hq]
    simp only [Option.getD_some]
    by_cases hq2 : q.2 = true
    · have hcomm : List.filter (fun a => a.2.enabled && (a.2.group == some q.1)) c.aliases
          = List.filter (fun p => (p.2.group == some q.1) && p.2.enabled) c.aliases :=
        List.filter_congr (fun p _ => by rw [Bool.and_comm])
      simp only [hq2, if_true]
      rw [map_names_lookup_sync hwf.1 (fun p hp => List.mem_of_mem_filter hp),
        stringJoin_filter, List.filter_filter, hcomm]
    · simp only [Bool.not_eq_true] at hq2
      simp [hq2]

/-- Witness for C5: the concrete mixed config — ungrouped enabled alias
first, then the enabled group's enabled members, disabled member
omitted. -/
theorem C5_witness :
    generateAliasScriptContent c4Cfg
      = some "unalias -a\nalias -- 'u'='cu'\nalias -- 'a1'='c1'\nalias -- 'a3'='c3'\n" := by
  rw [C5_generate_script c4Cfg (by decide) (by decide)]
  rfl

/-! ## Helper lemmas: the stable insertion sort of sort_aliases_in_group -/

theorem insRev_blocker {c : β → β → Ordering} {x b : β} (hxb : c x b ≠ .lt) :
    ∀ (A B : List β), insRev c x (A ++ b :: B) = insRev c x A ++ b :: B := by
  intro A B
  induction A with
  | nil => simp [insRev, hxb]
  | cons y A' ih =>
    by_cases h : c x y = .lt
    · simp [insRev, h, ih]
    · simp [insRev, h]

theorem foldl_insRev_blocker {c : β → β → Ordering} {b : β} (hb : ∀ x, c x b ≠ .lt)
    (l : List β) : ∀ (A B : List β),
      l.foldl (fun acc x => insRev c x acc) (A ++ b :: B)
        = l.foldl (fun acc x => insRev c x acc) A ++ b :: B := by
  induction l with
  | nil => intro A B; rfl
  | cons x l ih =>
    intro A B
    simp only [List.foldl_cons]
    rw [insRev_blocker (hb x) A B, ih (insRev c x A) B]

theorem insRev_head_no_lt {c : β → β → Ordering} {b : β} (hb2 : ∀ y, c b y ≠ .lt)
    (S : List β) : insRev c b S = b :: S := by
  cases S with
  | nil => rfl
  | cons z zs => simp [insRev, hb2 z]

theorem sortByStable_split {c : β → β → Ordering} {b : β}
    (hb1 : ∀ x, c x b ≠ .lt) (hb2 : ∀ y, c b y ≠ .lt) (l₁ l₂ : List β) :
    sortByStable c (l₁ ++ b :: l₂) = sortByStable c l₁ ++ b :: sortByStable c l₂ := by
  unfold sortByStable
  rw [List.foldl_append, List.foldl_cons,
    insRev_head_no_lt hb2 (l₁.foldl (fun acc x => insRev c x acc) []),
    show (b :: l₁.foldl (fun acc x => insRev c x acc) [])
        = [] ++ b :: l₁.foldl (fun acc x => insRev c x acc) [] from rfl,
    foldl_insRev_blocker hb1 l₂]
  simp

theorem insRev_perm {c : β → β → Ordering} (x : β) :
    ∀ A : List β, (insRev c x A).Perm (x :: A) := by
  intro A
  induction A with
  | nil => exact List.Perm.refl _
  | cons y ys ih =>
    by_cases h : c x y = .lt
    · simp only [insRev, h, if_pos]
      exact (ih.cons y).trans (List.Perm.swap x y ys)
    · simp [insRev, h]

theorem foldl_insRev_perm {c : β → β → Ordering} (l : List β) :
    ∀ A : List β, (l.foldl (fun acc x => insRev c x acc) A).Perm (l ++ A) := by
  induction l with
  | nil => intro A; simp
  | cons x l ih =>
    intro A
    simp only [List.foldl_cons]
    exact (ih (insRev c x A)).trans
      ((List.Perm.append_left l (insRev_perm x A)).trans List.perm_middle)

theorem sortByStable_perm {c : β → β → Ordering} (l : List β) :
    (sortByStable c l).Perm l := by
  unfold sortByStable
  refine (List.reverse_perm _).trans ?_
  simpa using foldl_insRev_perm l []

theorem sortByStable_blocker {c : β → β → Ordering} {l : List β} {i : Nat} {p : β}
    (hp : l[i]? = some p) (hb1 : ∀ x, c x p ≠ .lt) (hb2 : ∀ y, c p y ≠ .lt) :
    (sortByStable c l)[i]? = some p
      ∧ ((sortByStable c l).take i).Perm (l.take i) := by
  have hi : i < l.length := by
    by_contra hge
    rw [List.getElem?_eq_none (Nat.le_of_not_lt hge)] at hp
    cases hp
  have hget : l[i] = p := by
    have := List.getElem?_eq_getElem hi
    rw [hp] at this
    exact (Option.some.inj this).symm
  have hsplit : l = l.take i ++ p :: l.drop (i + 1) := by
    conv_lhs => rw [← List.take_append_drop i l]
    congr 1
    rw [List.drop_eq_getElem_cons hi, hget]
  have e : sortByStable c l
      = sortByStable c (l.take i) ++ p :: sortByStable c (l.drop (i + 1)) := by
    conv_lhs => rw [hsplit]
    exact sortByStable_split hb1 hb2 _ _
  have hlen : (sortByStable c (l.take i)).length = i := by
    rw [(sortByStable_perm (l.take i)).length_eq, List.length_take]
    exact Nat.min_eq_left (Nat.le_of_lt hi)
  constructor
  · rw [e, List.getElem?_append_right (by rw [hlen]), hlen]
    simp
  · rw [e, List.take_left' hlen]
    exact sortByStable_perm (l.take i)

/-- An entry whose group is not the target compares `eq` against
everything, in both directions: it is a blocker for the partial sort. -/
theorem sortCmp_blocker (target : Option String) {p : String × Alias}
    (hp : ¬ (p.2.group = target)) :
    (∀ x, sortCmp target x p ≠ .lt) ∧ (∀ y, sortCmp target p y ≠ .lt) := by
  constructor
  · intro z h
    unfold sortCmp at h
    by_cases hc : (z.2.group == p.2.group && z.2.group == target) = true
    · simp only [Bool.and_eq_true, beq_iff_eq] at hc
      exact absurd (hc.1 ▸ hc.2) hp
    · rw [if_neg (by simpa using hc)] at h
      cases h
  · intro z h
    unfold sortCmp at h
    by_cases hc : (p.2.group == z.2.group && p.2.group == target) = true
    · simp only [Bool.and_eq_true, beq_iff_eq] at hc
      exact absurd hc.2 hp
    · rw [if_neg (by simpa using hc)] at h
      cases h

/-! ## Claim theorem: the group-scoped partial sort (C6) -/

/-- Claim C6 (confirmed): `sort_aliases_in_group` fails `GroupDoesNotExist`
on an absent group leaving the Config unchanged; otherwise it returns
`ConfigChanged` with the alias map stably re-sorted under the partial
comparator: the result is a permutation of the original; every alias
outside the target scope keeps exactly its original index, and the
entries before it are a permutation of the original prefix (so its
relative order against every other entry is preserved — only pairs both
in the target scope are reordered); on the spec's example layout
(group-`"g"` alias, ungrouped alias, group-`"g"` alias) nothing moves at
all: the ungrouped alias stays in place and the two group aliases do not
become adjacent. -/
theorem C6_sort_group_scoped :
    (∀ cfg g, containsKey g cfg.groups = false →
      sortAliasesInGroup cfg (some g) = (.error .GroupDoesNotExist, cfg))
  ∧ (∀ cfg target,
      (∀ g, target = some g → containsKey g cfg.groups = true) →
      (sortAliasesInGroup cfg target
          = (.ok .ConfigChanged,
             { cfg with aliases := sortByStable (sortCmp target) cfg.aliases }))
        ∧ (sortByStable (sortCmp target) cfg.aliases).Perm cfg.aliases
        ∧ (∀ i p, cfg.aliases[i]? = some p → ¬ (p.2.group = target) →
            (sortByStable (sortCmp target) cfg.aliases)[i]? = some p
            ∧ ((sortByStable (sortCmp target) cfg.aliases).take i).Perm
                (cfg.aliases.take i)))
  ∧ sortAliasesInGroup c6Cfg (some "g") = (.ok .ConfigChanged, c6Cfg) := by
  refine ⟨?_, ?_, by rfl⟩
  · intro cfg g h
    simp [sortAliasesInGroup, h]
  · intro cfg target hok
    refine ⟨?_, sortByStable_perm cfg.aliases, ?_⟩
    · cases target with
      | none => rfl
      | some g => simp [sortAliasesInGroup, hok g rfl]
    · intro i p hp hblock
      exact sortByStable_blocker hp (sortCmp_blocker target hblock).1
        (sortCmp_blocker target hblock).2

/-- Witness for C6: the error branch, the sorted-result branch, and the
blocker position preserved at the spec example (the ungrouped alias stays
at index 1). -/
theorem C6_witness :
    sortAliasesInGroup Config.new (some "zzz") = (.error .GroupDoesNotExist, Config.new)
  ∧ sortAliasesInGroup c6Cfg (some "g")
      = (.ok .ConfigChanged,
         { c6Cfg with aliases := sortByStable (sortCmp (some "g")) c6Cfg.aliases })
  ∧ (sortByStable (sortCmp (some "g")) c6Cfg.aliases)[1]?
      = some ("x", Alias.new "cmd" none true false) := by
  refine ⟨C6_sort_group_scoped.1 Config.new "zzz" (by decide), ?_, ?_⟩
  · exact (C6_sort_group_scoped.2.1 c6Cfg (some "g")
      (fun g h => by cases h; decide)).1
  · exact ((C6_sort_group_scoped.2.1 c6Cfg (some "g")
      (fun g h => by cases h; decide)).2.2 1 ("x", Alias.new "cmd" none true false)
      rfl (by decide)).1

/-- Witness for C10: the resolvability criterion applied at concrete
configs — with the group present the grouping and the resync both
succeed. -/
theorem C10_witness :
    (getAllGroups c10Cfg).isSome = true
  ∧ (generateAliasScriptContent c4Cfg).isSome = true := by
  constructor
  · apply (C10_dangling_group_panics.1 c10Cfg).mpr
    intro p hp g hg
    simp only [c10Cfg, List.mem_singleton] at hp
    subst hp
    cases hg
    decide
  · apply (C10_dangling_group_panics.2.1 c4Cfg).mpr
    intro p hp g hg
    have hpg := (noDangling_iff c4Cfg).mp (by decide) p hp g hg
    exact hpg
